import Mathlib

/-!
Verification development for the convex-test to-do application.

The definitions below are a shallow embedding of the code in
`convex/tasks.ts` (backend query/mutation handlers), the schema in
`convex/schema.ts`, and the client filter/sort/statistics layer in
`src/App.tsx`.

Modelling conventions:
* JavaScript strings are modelled as `List Char` (`JStr`); `toLowerCase`,
  `trim` and `includes` are modelled by structural functions below.
* Document ids are modelled as `Nat`.
* `Date.now()` timestamps are modelled as `Nat` parameters (`now`).
* The two Convex tables `tasks` and `taskHistory` are modelled as lists
  kept in insertion (creation-time) order: the position of a document in
  the list is its creation order, as produced by `ctx.db.insert`.
* A Convex mutation runs as a transaction: a handler that throws leaves
  the database unchanged.  Fallible handlers therefore return
  `Except String Db`, and `runMutation` gives the resulting store.
* JavaScript `Array.prototype.sort(cmp)` is a stable sort placing `a`
  before `b` when `cmp a b ≤ 0`; it is modelled by `List.insertionSort`
  (stable) with the relation `cmp a b ≤ 0`.
-/

namespace ConvexTest

/-- JavaScript strings, modelled as lists of characters. -/
abbrev JStr := List Char

/-- Model of `String.prototype.toLowerCase`. -/
def jsToLower (s : JStr) : JStr := s.map Char.toLower

/-- Model of `String.prototype.trim`: drop leading and trailing whitespace. -/
def jsTrim (s : JStr) : JStr :=
  ((s.dropWhile Char.isWhitespace).reverse.dropWhile Char.isWhitespace).reverse

/-- Helper for `jsIncludes`: does `sub` occur contiguously in the list? -/
def jsIncludesAux (sub : JStr) : JStr → Bool
  | [] => sub.isEmpty
  | c :: rest => sub.isPrefixOf (c :: rest) || jsIncludesAux sub rest

/-- Model of `hay.includes(sub)` for JavaScript strings. -/
def jsIncludes (hay sub : JStr) : Bool := jsIncludesAux sub hay

/-- A `tasks` document, following `convex/schema.ts`: `text` and
`isCompleted` are required, everything else optional. -/
structure Task where
  id : Nat
  text : JStr
  description : Option JStr := none
  isCompleted : Bool
  isImportant : Option Bool := none
  createdAt : Option Nat := none
  updatedAt : Option Nat := none
  duration : Option Nat := none
  userId : Option Nat := none
deriving DecidableEq, Repr

/-- A `taskHistory` document, following `convex/schema.ts`:
`changeType` is optional. -/
structure HistoryEntry where
  taskId : Nat
  changeType : Option JStr := none
  changedTo : Bool
  changedAt : Nat
deriving DecidableEq, Repr

/-- The two stores the claims are about.  Each list is in creation order:
`ctx.db.insert` appends at the end. -/
structure Db where
  tasks : List Task
  history : List HistoryEntry
deriving DecidableEq, Repr

/-- Model of `ctx.db.get(id)` on the `tasks` table. -/
def dbGet (db : Db) (id : Nat) : Option Task :=
  db.tasks.find? (fun t => t.id == id)

/-- Model of `ctx.db.patch(id, fields)` on the `tasks` table: rewrite the
fields of the document with the given id, given as an update function that
never changes the id. -/
def dbPatch (db : Db) (id : Nat) (f : Task → Task) : Db :=
  { db with tasks := db.tasks.map (fun t => if t.id == id then f t else t) }

/-- Model of `ctx.db.insert("taskHistory", e)`: append at creation order. -/
def dbInsertHistory (db : Db) (e : HistoryEntry) : Db :=
  { db with history := db.history ++ [e] }

/-- Convex runs a mutation as a transaction: on a thrown error every write
is rolled back and the store is unchanged. -/
def runMutation (db : Db) (r : Except String Db) : Db :=
  match r with
  | .ok db' => db'
  | .error _ => db

/-- The string literal used for completion history entries. -/
def completionStr : JStr := ['c', 'o', 'm', 'p', 'l', 'e', 't', 'i', 'o', 'n']

/-- The string literal used for importance history entries. -/
def importanceStr : JStr := ['i', 'm', 'p', 'o', 'r', 't', 'a', 'n', 'c', 'e']

/-- `toggleCompleted` mutation handler (`convex/tasks.ts`, lines 67 to 84):
get the task, throw if absent, flip `isCompleted`, set `updatedAt`, and
insert one history entry tagged "completion".  The handler finally returns
the re-read task, which does not affect the stores and is omitted here. -/
def toggleCompleted (id : Nat) (now : Nat) (db : Db) : Except String Db :=
  match dbGet db id with
  | none => .error "Task not found"
  | some task =>
    let newStatus := !task.isCompleted
    let db1 := dbPatch db id (fun t => { t with isCompleted := newStatus, updatedAt := some now })
    .ok (dbInsertHistory db1
      { taskId := id, changeType := some completionStr, changedTo := newStatus, changedAt := now })

/-- `toggleImportant` mutation handler (`convex/tasks.ts`, lines 86 to 106):
like `toggleCompleted` but for the optional `isImportant` field; the
JavaScript negation `!task.isImportant` treats an absent value as `false`. -/
def toggleImportant (id : Nat) (now : Nat) (db : Db) : Except String Db :=
  match dbGet db id with
  | none => .error "Task not found"
  | some task =>
    let newStatus := !(task.isImportant.getD false)
    let db1 := dbPatch db id (fun t => { t with isImportant := some newStatus, updatedAt := some now })
    .ok (dbInsertHistory db1
      { taskId := id, changeType := some importanceStr, changedTo := newStatus, changedAt := now })

/-- `toggleAll` mutation handler (`convex/tasks.ts`, lines 108 to 127):
for each id in order, if the task exists flip it and insert a history
entry; the inserted entry carries no `changeType`. -/
def toggleAll (ids : List Nat) (now : Nat) (db : Db) : Db :=
  match ids with
  | [] => db
  | i :: rest =>
    match dbGet db i with
    | some task =>
      let newStatus := !task.isCompleted
      let db1 := dbPatch db i (fun t => { t with isCompleted := newStatus, updatedAt := some now })
      toggleAll rest now (dbInsertHistory db1
        { taskId := i, changeType := none, changedTo := newStatus, changedAt := now })
    | none => toggleAll rest now db

/-- `setAllCompleted` mutation handler (`convex/tasks.ts`, lines 129 to 147):
for each id in order, if the task exists and its `isCompleted` differs from
the target value, set the field and insert a history entry (again without a
`changeType`); otherwise skip both writes. -/
def setAllCompleted (ids : List Nat) (value : Bool) (now : Nat) (db : Db) : Db :=
  match ids with
  | [] => db
  | i :: rest =>
    match dbGet db i with
    | some task =>
      if task.isCompleted != value then
        let db1 := dbPatch db i (fun t => { t with isCompleted := value, updatedAt := some now })
        setAllCompleted rest value now (dbInsertHistory db1
          { taskId := i, changeType := none, changedTo := value, changedAt := now })
      else setAllCompleted rest value now db
    | none => setAllCompleted rest value now db

/-- Number of history entries whose `taskId` equals the given id; this is
the `withIndex("by_task", q.eq("taskId", id)).collect().length` lookup. -/
def historyCountOf (db : Db) (taskId : Nat) : Nat :=
  (db.history.filter (fun e => e.taskId == taskId)).length

/-- A task as returned by `listAllWithHistoryCount`: the task spread
together with the added `historyCount` field. -/
structure EnrichedTask where
  task : Task
  historyCount : Nat
deriving DecidableEq, Repr

/-- The search predicate built inside `listAllWithHistoryCount`
(`convex/tasks.ts`, lines 47 to 51), applied to the already lowercased and
trimmed query `q`: match when the lowercased title contains `q`, or the
task has a description whose lowercased text contains `q`. -/
def matchesSearch (q : JStr) (t : Task) : Bool :=
  jsIncludes (jsToLower t.text) q ||
    (match t.description with
     | some d => jsIncludes (jsToLower d) q
     | none => false)

/-- The user filter predicate of `listAllWithHistoryCount`
(`convex/tasks.ts`, line 41). -/
def matchesUsers (us : List Nat) (t : Task) : Bool :=
  match t.userId with
  | some u => us.contains u
  | none => false

/-- The filter stage of `listAllWithHistoryCount` (`convex/tasks.ts`,
lines 37 to 52): collect all tasks, optionally filter by a nonempty user
id list, then optionally filter by a search query whose trimmed form is
nonempty (JavaScript truthiness of `args.searchQuery` and of
`args.searchQuery.trim()`). -/
def filteredByArgs (searchQuery : Option JStr) (userIds : Option (List Nat))
    (db : Db) : List Task :=
  let tasks0 := db.tasks
  let tasks1 :=
    match userIds with
    | some us => if us.length > 0 then tasks0.filter (matchesUsers us) else tasks0
    | none => tasks0
  match searchQuery with
  | some s =>
    if s ≠ [] ∧ jsTrim s ≠ [] then
      tasks1.filter (matchesSearch (jsTrim (jsToLower s)))
    else tasks1
  | none => tasks1

/-- `listAllWithHistoryCount` query handler (`convex/tasks.ts`, lines 31
to 65): the filtered tasks, each annotated with its history count. -/
def listAllWithHistoryCount (searchQuery : Option JStr) (userIds : Option (List Nat))
    (db : Db) : List EnrichedTask :=
  (filteredByArgs searchQuery userIds db).map
    (fun t => { task := t, historyCount := historyCountOf db t.id })

/-- `getTaskHistory` query handler (`convex/tasks.ts`, lines 149 to 158):
`withIndex("by_task", q.eq("taskId", taskId)).order("desc").collect()`.
The `by_task` index is on `["taskId"]` with the implicit `_creationTime`
column appended, so with a fixed `taskId` the descending order is
descending creation time: the matching entries in reverse insertion
order. -/
def getTaskHistory (taskId : Nat) (db : Db) : List HistoryEntry :=
  (db.history.filter (fun e => e.taskId == taskId)).reverse

/-- JavaScript falsiness of an optional string (`!entry.changeType`):
true when the value is absent or the empty string. -/
def jsFalsyStr (s : Option JStr) : Bool :=
  match s with
  | none => true
  | some v => v.isEmpty

/-- The completion classifier used by `getLatestChanges`
(`convex/tasks.ts`, line 205): `!entry.changeType || entry.changeType === "completion"`. -/
def isCompletionChange (e : HistoryEntry) : Bool :=
  jsFalsyStr e.changeType || e.changeType == some completionStr

/-- The importance classifier used by `getLatestChanges`
(`convex/tasks.ts`, line 206): `entry.changeType === "importance"`. -/
def isImportanceChange (e : HistoryEntry) : Bool :=
  e.changeType == some importanceStr

/-- The eight sort orders of the web client (`src/App.tsx`, SortType). -/
inductive SortType
  | latest
  | inactive
  | newest
  | oldest
  | frequent
  | unfrequent
  | quickest
  | longest
deriving DecidableEq, Repr

/-- Duration filter selector of the web client. -/
inductive DurationFilterType
  | all
  | quick
  | long
deriving DecidableEq, Repr

/-- Importance filter selector of the web client. -/
inductive ImportanceFilterType
  | all
  | important
  | notImportant
deriving DecidableEq, Repr

/-- The comparator of `sortedAndFilteredTasks` (`src/App.tsx`, lines 456
to 477): a JavaScript numeric comparator, here with values in `Int`;
`?? 0` defaults are `Option.getD 0`. -/
def taskComparator (sort : SortType) (a b : EnrichedTask) : Int :=
  match sort with
  | .latest => (b.task.updatedAt.getD 0 : Int) - (a.task.updatedAt.getD 0 : Int)
  | .inactive => (a.task.updatedAt.getD 0 : Int) - (b.task.updatedAt.getD 0 : Int)
  | .newest => (b.task.createdAt.getD 0 : Int) - (a.task.createdAt.getD 0 : Int)
  | .oldest => (a.task.createdAt.getD 0 : Int) - (b.task.createdAt.getD 0 : Int)
  | .frequent => (b.historyCount : Int) - (a.historyCount : Int)
  | .unfrequent => (a.historyCount : Int) - (b.historyCount : Int)
  | .quickest => (a.task.duration.getD 0 : Int) - (b.task.duration.getD 0 : Int)
  | .longest => (b.task.duration.getD 0 : Int) - (a.task.duration.getD 0 : Int)

/-- JavaScript `filtered.sort(comparator)`: a stable sort that places `a`
before `b` when the comparator is nonpositive.  Modelled with the stable
`List.insertionSort`. -/
def sortTasks (sort : SortType) (l : List EnrichedTask) : List EnrichedTask :=
  l.insertionSort (fun a b => taskComparator sort a b ≤ 0)

/-- The status filter of `sortedAndFilteredTasks` (`src/App.tsx`, lines
431 to 436). -/
def statusFilter (showCompleted showIncomplete : Bool) (t : Task) : Bool :=
  if showCompleted && showIncomplete then true
  else if showCompleted && t.isCompleted then true
  else if showIncomplete && !t.isCompleted then true
  else false

/-- The duration filter of `sortedAndFilteredTasks` (`src/App.tsx`, lines
439 to 445). -/
def durationFilterPred (f : DurationFilterType) (t : Task) : Bool :=
  match f with
  | .all => true
  | .quick => t.duration.getD 0 ≤ 15
  | .long => t.duration.getD 0 > 15

/-- The importance filter of `sortedAndFilteredTasks` (`src/App.tsx`,
lines 448 to 453): `important` requires the flag to be exactly `true`,
`notImportant` accepts a false or absent flag. -/
def importanceFilterPred (f : ImportanceFilterType) (t : Task) : Bool :=
  match f with
  | .all => true
  | .important => t.isImportant == some true
  | .notImportant => !(t.isImportant.getD false)

/-- The filter stage of `sortedAndFilteredTasks`: status, then duration,
then importance. -/
def filteredTasks (showCompleted showIncomplete : Bool) (df : DurationFilterType)
    (impf : ImportanceFilterType) (l : List EnrichedTask) : List EnrichedTask :=
  ((l.filter (fun e => statusFilter showCompleted showIncomplete e.task)).filter
      (fun e => durationFilterPred df e.task)).filter
    (fun e => importanceFilterPred impf e.task)

/-- `sortedAndFilteredTasks` of the web client (`src/App.tsx`, lines 429
to 478): filter by status, duration and importance, then sort. -/
def sortedAndFilteredTasks (showCompleted showIncomplete : Bool) (df : DurationFilterType)
    (impf : ImportanceFilterType) (sort : SortType) (l : List EnrichedTask) :
    List EnrichedTask :=
  sortTasks sort (filteredTasks showCompleted showIncomplete df impf l)

/-- The pair of status filter toggles of the web client. -/
structure StatusFilterState where
  showCompleted : Bool
  showIncomplete : Bool
deriving DecidableEq, Repr

/-- `toggleShowCompleted` handler (`src/App.tsx`, lines 372 to 376):
refuse to deselect the only active toggle, otherwise flip. -/
def toggleShowCompleted (s : StatusFilterState) : StatusFilterState :=
  if s.showCompleted && !s.showIncomplete then s
  else { s with showCompleted := !s.showCompleted }

/-- `toggleShowIncomplete` handler (`src/App.tsx`, lines 378 to 382). -/
def toggleShowIncomplete (s : StatusFilterState) : StatusFilterState :=
  if s.showIncomplete && !s.showCompleted then s
  else { s with showIncomplete := !s.showIncomplete }

/-- One user interaction with the two status toggles. -/
inductive StatusStep : StatusFilterState → StatusFilterState → Prop
  | completed (s : StatusFilterState) : StatusStep s (toggleShowCompleted s)
  | incomplete (s : StatusFilterState) : StatusStep s (toggleShowIncomplete s)

/-- The initial status filter state produced by `getInitialParams`
(`src/App.tsx`, lines 269 to 271) when the URL carries no parameters:
both toggles active. -/
def initialStatusFilterState : StatusFilterState :=
  { showCompleted := true, showIncomplete := true }

/-- At least one status toggle is active. -/
def statusInvariant (s : StatusFilterState) : Prop :=
  s.showCompleted = true ∨ s.showIncomplete = true

/-- A `users` document (`convex/schema.ts`); the avatar and color fields
play no role in the claims. -/
structure User where
  id : Nat
  name : JStr
deriving DecidableEq, Repr

/-- One row of the statistics table (`src/App.tsx`, lines 508 to 518). -/
structure UserStat where
  user : User
  completed : Nat
  incomplete : Nat
  important : Nat
  changes : Nat
  lastActive : Option Nat
  inactive : Nat
  short : Nat
  long : Nat
deriving DecidableEq, Repr

/-- The sortable columns of the statistics table. -/
inductive StatsSortColumn
  | user
  | completed
  | incomplete
  | important
  | changes
  | lastActive
  | inactive
  | short
  | long
deriving DecidableEq, Repr

/-- Sort direction of the statistics table. -/
inductive SortDirection
  | asc
  | desc
deriving DecidableEq, Repr

/-- The inactive-task predicate (`src/App.tsx`, lines 498 to 500):
`!task.updatedAt || (task.createdAt && task.updatedAt === task.createdAt)`
with JavaScript truthiness (absent or zero timestamps are falsy). -/
def inactivePred (t : Task) : Bool :=
  match t.updatedAt with
  | none => true
  | some u =>
    if u = 0 then true
    else
      match t.createdAt with
      | some c => if c = 0 then false else u == c
      | none => false

/-- One row of `userStats` (`src/App.tsx`, lines 484 to 519): counts over
the tasks whose `userId` equals the user id, the summed history counts,
and the maximal updated timestamp (absent when the user owns no task). -/
def computeUserStat (allTasks : List EnrichedTask) (u : User) : UserStat :=
  let userTasks := allTasks.filter (fun e => e.task.userId == some u.id)
  { user := u
    completed := (userTasks.filter (fun e => e.task.isCompleted)).length
    incomplete := (userTasks.filter (fun e => !e.task.isCompleted)).length
    important := (userTasks.filter (fun e => e.task.isImportant.getD false)).length
    changes := (userTasks.map (fun e => e.historyCount)).sum
    lastActive :=
      if userTasks.length > 0 then
        some ((userTasks.map (fun e => e.task.updatedAt.getD 0)).foldl max 0)
      else none
    inactive := (userTasks.filter (fun e => inactivePred e.task)).length
    short := (userTasks.filter (fun e => e.task.duration.getD 0 ≤ 15)).length
    long := (userTasks.filter (fun e => e.task.duration.getD 0 > 15)).length }

/-- Model of `String.prototype.localeCompare` as plain lexicographic
character comparison, returning a negative, zero or positive number. -/
def jsStrCompare : JStr → JStr → Int
  | [], [] => 0
  | [], _ :: _ => -1
  | _ :: _, [] => 1
  | a :: as, b :: bs => if a < b then -1 else if b < a then 1 else jsStrCompare as bs

/-- The `aValue`/`bValue` extraction of the statistics sort
(`src/App.tsx`, lines 522 to 563).  The value is a number or a string and
may in principle be absent; note that the `lastActive` branch coalesces an
absent timestamp to `0` (`a.lastActive ?? 0`), so no column ever produces
an absent value. -/
def statSortValue (col : StatsSortColumn) (s : UserStat) : Option (Int ⊕ JStr) :=
  match col with
  | .user => some (.inr (jsToLower s.user.name))
  | .completed => some (.inl s.completed)
  | .incomplete => some (.inl s.incomplete)
  | .important => some (.inl s.important)
  | .changes => some (.inl s.changes)
  | .lastActive => some (.inl (s.lastActive.getD 0))
  | .inactive => some (.inl s.inactive)
  | .short => some (.inl s.short)
  | .long => some (.inl s.long)

/-- The statistics sort comparator (`src/App.tsx`, lines 565 to 576):
absent values sort last without direction flip; two strings compare with
`localeCompare`, otherwise numeric subtraction; the direction flips the
sign of the comparison.  The mixed number/string case cannot arise, since
`statSortValue` is homogeneous per column. -/
def statsCmp (col : StatsSortColumn) (dir : SortDirection) (a b : UserStat) : Int :=
  match statSortValue col a, statSortValue col b with
  | none, none => 0
  | none, some _ => 1
  | some _, none => -1
  | some av, some bv =>
    let comparison :=
      match av, bv with
      | .inr x, .inr y => jsStrCompare x y
      | .inl x, .inl y => x - y
      | _, _ => 0
    if dir = SortDirection.asc then comparison else -comparison

/-- The sort stage of `userStats` (`src/App.tsx`, line 522). -/
def sortUserStats (col : StatsSortColumn) (dir : SortDirection)
    (stats : List UserStat) : List UserStat :=
  stats.insertionSort (fun a b => statsCmp col dir a b ≤ 0)

/-- `userStats` (`src/App.tsx`, lines 481 to 580): one row per user,
sorted by the selected column and direction. -/
def userStats (users : List User) (allTasks : List EnrichedTask)
    (col : StatsSortColumn) (dir : SortDirection) : List UserStat :=
  sortUserStats col dir (users.map (computeUserStat allTasks))

/-- Whether the underlying sort datum of a row is missing: only the
`lastActive` column has an optional datum. -/
def statDatumMissing (col : StatsSortColumn) (s : UserStat) : Bool :=
  match col with
  | .lastActive => s.lastActive.isNone
  | _ => false

/-- Status filter selector of the mobile client
(`mobile/components/TaskList.tsx`). -/
inductive MobileFilter
  | all
  | completed
  | incomplete
  | important
deriving DecidableEq, Repr

/-- The status part of the mobile filter (`mobile/components/TaskList.tsx`,
lines 390 to 400). -/
def mobileStatusOk (f : MobileFilter) (t : Task) : Bool :=
  match f with
  | .all => true
  | .completed => t.isCompleted
  | .incomplete => !t.isCompleted
  | .important => t.isImportant.getD false

/-- The duration part of the mobile filter (`mobile/components/TaskList.tsx`,
lines 402 to 408). -/
def mobileDurationOk (f : DurationFilterType) (t : Task) : Bool :=
  match f with
  | .all => true
  | .quick => !(t.duration.getD 0 > 15)
  | .long => !(t.duration.getD 0 ≤ 15)

/-- The filter stage of the mobile `sortedAndFilteredTasks`
(`mobile/components/TaskList.tsx`, lines 389 to 411): one pass checking
status then duration. -/
def mobileFilteredTasks (f : MobileFilter) (df : DurationFilterType)
    (l : List EnrichedTask) : List EnrichedTask :=
  l.filter (fun e => mobileStatusOk f e.task && mobileDurationOk df e.task)

/-- `sortedAndFilteredTasks` of the mobile client
(`mobile/components/TaskList.tsx`, lines 389 to 435): the sort comparator
is identical to the web one. -/
def sortedAndFilteredTasksMobile (f : MobileFilter) (df : DurationFilterType)
    (sort : SortType) (l : List EnrichedTask) : List EnrichedTask :=
  sortTasks sort (mobileFilteredTasks f df l)

/-- Concrete fixture task used by witness statements. -/
def exTask1 : Task := { id := 1, text := ['a'], isCompleted := false }

/-- Concrete fixture store used by witness statements. -/
def exDb1 : Db := { tasks := [exTask1], history := [] }

/-- Concrete fixture task with an uppercase title. -/
def exTaskA : Task := { id := 1, text := ['F', 'o', 'o'], isCompleted := false }

/-- Concrete fixture task matching a search only through its description. -/
def exTaskB : Task :=
  { id := 2, text := ['b', 'a', 'r'], description := some ['f', 'O', 'o', 'd'],
    isCompleted := true }

/-- Concrete fixture store with two tasks and three history entries. -/
def exDb2 : Db :=
  { tasks := [exTaskA, exTaskB],
    history := [{ taskId := 1, changedTo := true, changedAt := 3 },
      { taskId := 1, changeType := some completionStr, changedTo := false, changedAt := 4 },
      { taskId := 2, changedTo := true, changedAt := 5 }] }

/-- Concrete fixture store whose two history entries were inserted in the
opposite order of their `changedAt` timestamps, as the history backfill
utility can produce (it inserts entries with random timestamps). -/
def exDb3 : Db :=
  { tasks := [exTask1],
    history := [{ taskId := 1, changeType := some completionStr, changedTo := true, changedAt := 10 },
      { taskId := 1, changeType := some completionStr, changedTo := false, changedAt := 5 }] }

/-- Concrete fixture list of enriched tasks with pairwise distinct
history counts. -/
def exEnriched : List EnrichedTask :=
  [{ task := exTaskA, historyCount := 2 },
   { task := exTaskB, historyCount := 5 },
   { task := exTask1, historyCount := 1 }]

/-- Concrete fixture user owning one task. -/
def exUserA : User := { id := 1, name := ['a'] }

/-- Concrete fixture user owning no task. -/
def exUserB : User := { id := 2, name := ['b'] }

/-- Concrete fixture task owned by the first user, with a positive
updated timestamp. -/
def exStatsTask : Task :=
  { id := 1, text := ['t'], isCompleted := false, updatedAt := some 100, userId := some 1 }

/-- Concrete fixture task list for the statistics table. -/
def exStatsTasks : List EnrichedTask :=
  [{ task := exStatsTask, historyCount := 0 }]

/-- A task id in the store whose completion flag differs from the target
value: exactly the ids for which `setAllCompleted` performs its writes. -/
def qualifies (db : Db) (v : Bool) (i : Nat) : Bool :=
  match dbGet db i with
  | some t => t.isCompleted != v
  | none => false

section Lemmas

/-- Patching a document leaves the history store untouched. -/
theorem history_dbPatch (db : Db) (i : Nat) (f : Task → Task) :
    (dbPatch db i f).history = db.history := rfl

/-- Inserting a history entry leaves the task store untouched. -/
theorem dbGet_dbInsertHistory (db : Db) (e : HistoryEntry) (j : Nat) :
    dbGet (dbInsertHistory db e) j = dbGet db j := rfl

/-- Reading the patched document gives the update applied to the old one,
provided the update does not change the id. -/
theorem dbGet_dbPatch_self (db : Db) (i : Nat) (f : Task → Task)
    (hf : ∀ t, (f t).id = t.id) :
    dbGet (dbPatch db i f) i = (dbGet db i).map f := by
  unfold dbGet dbPatch
  rw [List.find?_map]
  have hp : ((fun t : Task => t.id == i) ∘ fun t => if t.id == i then f t else t)
      = fun t : Task => t.id == i := by
    funext t
    by_cases h : t.id = i
    · simp [h, hf t]
    · simp [h]
  rw [hp]
  rcases hfind : db.tasks.find? (fun t => t.id == i) with _ | t0
  · rw [hfind]
    rfl
  · rw [hfind]
    have ht0 : (t0.id == i) = true := (List.find?_eq_some.mp hfind).1
    simp [Option.map, ht0]

/-- Reading any other document is unaffected by a patch, provided the
update does not change the id. -/
theorem dbGet_dbPatch_ne (db : Db) (i j : Nat) (f : Task → Task)
    (hf : ∀ t, (f t).id = t.id) (hne : j ≠ i) :
    dbGet (dbPatch db i f) j = dbGet db j := by
  unfold dbGet dbPatch
  rw [List.find?_map]
  have hp : ((fun t : Task => t.id == j) ∘ fun t => if t.id == i then f t else t)
      = fun t : Task => t.id == j := by
    funext t
    by_cases h : t.id = i
    · simp [h, hf t, Ne.symm hne]
    · simp [h]
  rw [hp]
  rcases hfind : db.tasks.find? (fun t => t.id == j) with _ | t0
  · rw [hfind]
    rfl
  · rw [hfind]
    have ht0 : (t0.id == j) = true := (List.find?_eq_some.mp hfind).1
    have hti : t0.id ≠ i := by
      intro hcontra
      exact hne (by simpa [hcontra] using (beq_iff_eq.mp ht0).symm)
    simp [Option.map, hti]

/-- Setting the completion flag of task `i` to `v` makes every id qualify
exactly as before except `i`, which no longer qualifies. -/
theorem qualifies_patch_set (db : Db) (i now : Nat) (v : Bool) (j : Nat) :
    qualifies (dbPatch db i (fun t => { t with isCompleted := v, updatedAt := some now })) v j
      = (qualifies db v j && !(j == i)) := by
  by_cases h : j = i
  · subst h
    rw [qualifies,
      dbGet_dbPatch_self db j (fun t => { t with isCompleted := v, updatedAt := some now })
        (fun t => rfl)]
    rcases hg : dbGet db j with _ | t
    · simp [qualifies, hg]
    · simp [qualifies, hg, Option.map]
  · rw [qualifies,
      dbGet_dbPatch_ne db i j (fun t => { t with isCompleted := v, updatedAt := some now })
        (fun t => rfl) h]
    simp [qualifies, h]

/-- The history entries appended by `setAllCompleted`: one per distinct id
in the list whose task exists and was at the opposite value, each with no
change kind, the target value, and the call timestamp. -/
theorem setAllCompleted_history (ids : List Nat) (v : Bool) (now : Nat) (db : Db) :
    ∃ es : List HistoryEntry,
      (setAllCompleted ids v now db).history = db.history ++ es
      ∧ es.length = (ids.toFinset.filter (fun i => qualifies db v i = true)).card
      ∧ ∀ e ∈ es, qualifies db v e.taskId = true ∧ e.changeType = none
          ∧ e.changedTo = v ∧ e.changedAt = now := by
  induction ids generalizing db with
  | nil => exact ⟨[], by simp [setAllCompleted], by simp, by simp⟩
  | cons i rest ih =>
    rcases hget : dbGet db i with _ | t
    · have hqi : qualifies db v i = false := by simp [qualifies, hget]
      obtain ⟨es, h1, h2, h3⟩ := ih db
      refine ⟨es, ?_, ?_, h3⟩
      · simp only [setAllCompleted, hget]
        exact h1
      · rw [h2]
        congr 1
        rw [List.toFinset_cons, Finset.filter_insert, if_neg (by simp [hqi])]
    · by_cases hval : (t.isCompleted != v) = true
      · have hqi : qualifies db v i = true := by simp only [qualifies, hget]; exact hval
        obtain ⟨es, h1, h2, h3⟩ :=
          ih (dbInsertHistory
            (dbPatch db i (fun t => { t with isCompleted := v, updatedAt := some now }))
            { taskId := i, changeType := none, changedTo := v, changedAt := now })
        have hstep : setAllCompleted (i :: rest) v now db
            = setAllCompleted rest v now
                (dbInsertHistory
                  (dbPatch db i (fun t => { t with isCompleted := v, updatedAt := some now }))
                  { taskId := i, changeType := none, changedTo := v, changedAt := now }) := by
          simp only [setAllCompleted, hget, hval, if_true]
        have hq2 : ∀ j, qualifies
            (dbInsertHistory
              (dbPatch db i (fun t => { t with isCompleted := v, updatedAt := some now }))
              { taskId := i, changeType := none, changedTo := v, changedAt := now }) v j
            = (qualifies db v j && !(j == i)) := fun j => qualifies_patch_set db i now v j
        refine ⟨{ taskId := i, changeType := none, changedTo := v, changedAt := now } :: es,
          ?_, ?_, ?_⟩
        · rw [hstep, h1]
          show (db.history ++ [_]) ++ es = _
          simp
        · simp only [List.length_cons]
          rw [h2]
          have hsets : rest.toFinset.filter (fun j => qualifies
                (dbInsertHistory
                  (dbPatch db i (fun t => { t with isCompleted := v, updatedAt := some now }))
                  { taskId := i, changeType := none, changedTo := v, changedAt := now }) v j = true)
              = (rest.toFinset.filter (fun j => qualifies db v j = true)).erase i := by
            ext j
            simp only [Finset.mem_filter, Finset.mem_erase, hq2 j, Bool.and_eq_true,
              Bool.not_eq_true', beq_eq_false_iff_ne, ne_eq]
            tauto
          rw [hsets, List.toFinset_cons, Finset.filter_insert, if_pos hqi]
          have hins : insert i (rest.toFinset.filter (fun j => qualifies db v j = true))
              = insert i ((rest.toFinset.filter (fun j => qualifies db v j = true)).erase i) := by
            ext j
            by_cases hj : j = i <;> simp [hj]
          rw [hins, Finset.card_insert_of_not_mem (Finset.not_mem_erase _ _)]
        · intro e he
          rcases List.mem_cons.mp he with he | he
          · subst he
            exact ⟨hqi, rfl, rfl, rfl⟩
          · obtain ⟨hq, hc, hto, hat⟩ := h3 e he
            refine ⟨?_, hc, hto, hat⟩
            rw [hq2 e.taskId] at hq
            simp only [Bool.and_eq_true] at hq
            exact hq.1
      · have hqi : qualifies db v i = false := by
          simp only [qualifies, hget]
          exact Bool.not_eq_true _ ▸ (Bool.eq_false_iff.mpr (fun hcontra => hval hcontra))
        obtain ⟨es, h1, h2, h3⟩ := ih db
        have hstep : setAllCompleted (i :: rest) v now db = setAllCompleted rest v now db := by
          simp only [setAllCompleted, hget]
          rw [if_neg (by simpa using hval)]
        refine ⟨es, by rw [hstep]; exact h1, ?_, h3⟩
        rw [h2]
        congr 1
        rw [List.toFinset_cons, Finset.filter_insert, if_neg (by simp [hqi])]

/-- The history entries appended by `toggleAll` all carry no change kind
and the call timestamp. -/
theorem toggleAll_history (ids : List Nat) (now : Nat) (db : Db) :
    ∃ es : List HistoryEntry,
      (toggleAll ids now db).history = db.history ++ es
      ∧ ∀ e ∈ es, e.changeType = none ∧ e.changedAt = now := by
  induction ids generalizing db with
  | nil => exact ⟨[], by simp [toggleAll], by simp⟩
  | cons i rest ih =>
    rcases hget : dbGet db i with _ | t
    · obtain ⟨es, h1, h2⟩ := ih db
      refine ⟨es, ?_, h2⟩
      simp only [toggleAll, hget]
      exact h1
    · obtain ⟨es, h1, h2⟩ :=
        ih (dbInsertHistory
          (dbPatch db i (fun s => { s with isCompleted := !t.isCompleted, updatedAt := some now }))
          { taskId := i, changeType := none, changedTo := !t.isCompleted, changedAt := now })
      refine ⟨{ taskId := i, changeType := none, changedTo := !t.isCompleted, changedAt := now } :: es,
        ?_, ?_⟩
      · have hstep : toggleAll (i :: rest) now db
            = toggleAll rest now
                (dbInsertHistory
                  (dbPatch db i
                    (fun s => { s with isCompleted := !t.isCompleted, updatedAt := some now }))
                  { taskId := i, changeType := none, changedTo := !t.isCompleted, changedAt := now }) := by
          simp only [toggleAll, hget]
        rw [hstep, h1]
        show (db.history ++ [_]) ++ es = _
        simp
      · intro e he
        rcases List.mem_cons.mp he with he | he
        · subst he
          exact ⟨rfl, rfl⟩
        · exact h2 e he

end Lemmas

/-- Claim C1: for every task in the store, `toggleCompleted` flips the
completion flag, sets the updated timestamp to the time of the call, and
appends exactly one history entry for that task with change kind
"completion" and changed-to value equal to the new flag. -/
theorem toggleCompleted_spec (db : Db) (id now : Nat) (task : Task)
    (h : dbGet db id = some task) :
    ∃ db', toggleCompleted id now db = .ok db'
      ∧ dbGet db' id = some { task with isCompleted := !task.isCompleted, updatedAt := some now }
      ∧ db'.history = db.history ++
          [{ taskId := id, changeType := some completionStr,
             changedTo := !task.isCompleted, changedAt := now }] := by
  refine ⟨_, by rw [toggleCompleted, h], ?_, ?_⟩
  · rw [dbGet_dbInsertHistory,
      dbGet_dbPatch_self db id
        (fun t => { t with isCompleted := !task.isCompleted, updatedAt := some now })
        (fun t => rfl),
      h]
    rfl
  · rfl

theorem toggleCompleted_spec_witness :
    ∃ db', toggleCompleted 1 5 exDb1 = .ok db'
      ∧ dbGet db' 1 = some { exTask1 with isCompleted := !exTask1.isCompleted, updatedAt := some 5 }
      ∧ db'.history = exDb1.history ++
          [{ taskId := 1, changeType := some completionStr,
             changedTo := !exTask1.isCompleted, changedAt := 5 }] :=
  toggleCompleted_spec exDb1 1 5 exTask1 (by decide)

/-- Claim C3: mutating a task id that is not in the store fails with the
"Task not found" error for both single-task mutators, and the resulting
store (the mutation transaction rolls back on a thrown error) is exactly
the store before the call. -/
theorem toggle_missing_id_spec (db : Db) (id now : Nat) (h : dbGet db id = none) :
    toggleCompleted id now db = .error "Task not found"
    ∧ toggleImportant id now db = .error "Task not found"
    ∧ runMutation db (toggleCompleted id now db) = db
    ∧ runMutation db (toggleImportant id now db) = db := by
  refine ⟨?_, ?_, ?_, ?_⟩ <;> simp [toggleCompleted, toggleImportant, runMutation, h]

theorem toggle_missing_id_spec_witness :
    toggleCompleted 7 5 exDb1 = .error "Task not found"
    ∧ toggleImportant 7 5 exDb1 = .error "Task not found"
    ∧ runMutation exDb1 (toggleCompleted 7 5 exDb1) = exDb1
    ∧ runMutation exDb1 (toggleImportant 7 5 exDb1) = exDb1 :=
  toggle_missing_id_spec exDb1 7 5 (by decide)

/-- Claim C2: `setAllCompleted` appends a history entry only for tasks in
the list whose completion flag differed from the target value (skipping
the field write and the append otherwise), and the number of new history
entries equals the number of distinct tasks in the list that were
previously at the opposite value. -/
theorem setAllCompleted_spec (ids : List Nat) (v : Bool) (now : Nat) (db : Db) :
    ∃ es : List HistoryEntry,
      (setAllCompleted ids v now db).history = db.history ++ es
      ∧ es.length = (ids.toFinset.filter (fun i => qualifies db v i = true)).card
      ∧ ∀ e ∈ es, qualifies db v e.taskId = true ∧ e.changedTo = v :=
  match setAllCompleted_history ids v now db with
  | ⟨es, h1, h2, h3⟩ => ⟨es, h1, h2, fun e he => ⟨(h3 e he).1, (h3 e he).2.2.1⟩⟩

/-- Claim C10: the bulk mutators `toggleAll` and `setAllCompleted` insert
history entries without a change-kind tag, and the classifier of
`getLatestChanges` therefore treats every such entry as a completion
change (and never as an importance change). -/
theorem bulk_entries_default_to_completion (ids : List Nat) (v : Bool) (now : Nat) (db : Db) :
    (∃ es : List HistoryEntry, (toggleAll ids now db).history = db.history ++ es
      ∧ ∀ e ∈ es, e.changeType = none
        ∧ isCompletionChange e = true ∧ isImportanceChange e = false)
    ∧ (∃ es : List HistoryEntry, (setAllCompleted ids v now db).history = db.history ++ es
      ∧ ∀ e ∈ es, e.changeType = none
        ∧ isCompletionChange e = true ∧ isImportanceChange e = false) := by
  constructor
  · obtain ⟨es, h1, h2⟩ := toggleAll_history ids now db
    refine ⟨es, h1, fun e he => ?_⟩
    obtain ⟨hc, _⟩ := h2 e he
    exact ⟨hc, by simp [isCompletionChange, jsFalsyStr, hc],
      by simp [isImportanceChange, hc]⟩
  · obtain ⟨es, h1, h2, h3⟩ := setAllCompleted_history ids v now db
    refine ⟨es, h1, fun e he => ?_⟩
    obtain ⟨_, hc, _, _⟩ := h3 e he
    exact ⟨hc, by simp [isCompletionChange, jsFalsyStr, hc],
      by simp [isImportanceChange, hc]⟩

/-- Claim C4: with a search string whose trimmed form is nonempty,
`listAllWithHistoryCount` returns exactly the tasks whose title or
description contains the trimmed, lowercased search string (the
case-insensitive substring test of the code, which lowercases both
sides); with an empty or whitespace-only search string it returns the
same result as a call without a search argument. -/
theorem listAll_search_spec (db : Db) (s : JStr) :
    (jsTrim s ≠ [] →
      listAllWithHistoryCount (some s) none db
        = (db.tasks.filter (matchesSearch (jsTrim (jsToLower s)))).map
            (fun t => { task := t, historyCount := historyCountOf db t.id }))
    ∧ (jsTrim s = [] →
      listAllWithHistoryCount (some s) none db = listAllWithHistoryCount none none db) := by
  constructor
  · intro h
    have hs : s ≠ [] := by
      intro h0
      subst h0
      exact h rfl
    simp only [listAllWithHistoryCount, filteredByArgs]
    rw [if_pos ⟨hs, h⟩]
  · intro h
    simp only [listAllWithHistoryCount, filteredByArgs]
    rw [if_neg (fun hc => hc.2 h)]

theorem listAll_search_spec_witness :
    (listAllWithHistoryCount (some [' ', 'f', 'O', 'o']) none exDb2
      = (exDb2.tasks.filter (matchesSearch (jsTrim (jsToLower [' ', 'f', 'O', 'o'])))).map
          (fun t => { task := t, historyCount := historyCountOf exDb2 t.id }))
    ∧ (listAllWithHistoryCount (some [' ', ' ']) none exDb2
      = listAllWithHistoryCount none none exDb2) :=
  ⟨(listAll_search_spec exDb2 [' ', 'f', 'O', 'o']).1 (by decide),
   (listAll_search_spec exDb2 [' ', ' ']).2 (by decide)⟩

/-- Claim C5: every record returned by `listAllWithHistoryCount` carries a
`historyCount` equal to the number of history entries referencing that
task, and the output has exactly one record per matching task (its task
projection is the filtered task list itself). -/
theorem listAll_one_record_per_task (db : Db) (sq : Option JStr) (us : Option (List Nat)) :
    (∀ e ∈ listAllWithHistoryCount sq us db,
      e.historyCount = (db.history.filter (fun h => h.taskId == e.task.id)).length)
    ∧ (listAllWithHistoryCount sq us db).map (fun e => e.task) = filteredByArgs sq us db := by
  constructor
  · intro e he
    simp only [listAllWithHistoryCount, List.mem_map] at he
    obtain ⟨t, _, rfl⟩ := he
    rfl
  · simp only [listAllWithHistoryCount, List.map_map]
    rw [show ((fun e : EnrichedTask => e.task) ∘
        fun t => ({ task := t, historyCount := historyCountOf db t.id } : EnrichedTask)) = id
      from funext (fun t => rfl)]
    exact List.map_id _

theorem listAll_one_record_per_task_witness :
    (({ task := exTaskA, historyCount := 2 } : EnrichedTask).historyCount
      = (exDb2.history.filter
          (fun h => h.taskId == ({ task := exTaskA, historyCount := 2 } : EnrichedTask).task.id)).length)
    ∧ (listAllWithHistoryCount none none exDb2).map (fun e => e.task)
      = filteredByArgs none none exDb2 :=
  ⟨(listAll_one_record_per_task exDb2 none none).1
      { task := exTaskA, historyCount := 2 } (by decide),
   (listAll_one_record_per_task exDb2 none none).2⟩

/-- Claim C9, counterexample: on a store whose two entries for task 1 were
inserted with decreasing `changedAt` timestamps (10 then 5), the result of
`getTaskHistory` is not descending by `changedAt`: the query orders by the
`by_task` index, that is by insertion (creation) time, not by the
`changedAt` field. -/
theorem getTaskHistory_changedAt_counterexample :
    ¬ List.Pairwise (fun a b => b.changedAt ≤ a.changedAt) (getTaskHistory 1 exDb3) := by
  decide

/-- Claim C9, amended: `getTaskHistory` returns exactly the history
entries referencing the task and no others, in reverse insertion
(descending creation-time) order; this order is descending by `changedAt`
whenever the entries were inserted in nondecreasing `changedAt` order, but
not in general. -/
theorem getTaskHistory_spec (db : Db) (taskId : Nat) :
    (∀ e, e ∈ getTaskHistory taskId db ↔ e ∈ db.history ∧ e.taskId = taskId)
    ∧ (List.Pairwise (fun a b => a.changedAt ≤ b.changedAt) db.history →
        List.Pairwise (fun a b => b.changedAt ≤ a.changedAt) (getTaskHistory taskId db)) := by
  constructor
  · intro e
    simp [getTaskHistory, List.mem_filter, beq_iff_eq]
  · intro hsorted
    rw [getTaskHistory, List.pairwise_reverse]
    exact List.Pairwise.sublist (List.filter_sublist _) hsorted

theorem getTaskHistory_spec_witness :
    List.Pairwise (fun a b => b.changedAt ≤ a.changedAt) (getTaskHistory 1 exDb2) :=
  (getTaskHistory_spec exDb2 1).2 (by decide)

/-- Claim C7: the two status toggles keep at least one of the pair active:
the invariant holds in every state reachable from the initial state (both
active) through toggle interactions, a toggle of the only active filter is
rejected leaving the state unchanged, and every toggle from a state
satisfying the invariant yields a state satisfying it. -/
theorem status_toggle_invariant :
    (∀ s, Relation.ReflTransGen StatusStep initialStatusFilterState s → statusInvariant s)
    ∧ (∀ s : StatusFilterState, s.showCompleted = true → s.showIncomplete = false →
        toggleShowCompleted s = s)
    ∧ (∀ s : StatusFilterState, s.showIncomplete = true → s.showCompleted = false →
        toggleShowIncomplete s = s)
    ∧ (∀ s : StatusFilterState, statusInvariant s →
        statusInvariant (toggleShowCompleted s) ∧ statusInvariant (toggleShowIncomplete s)) := by
  have hpres : ∀ s : StatusFilterState, statusInvariant s →
      statusInvariant (toggleShowCompleted s) ∧ statusInvariant (toggleShowIncomplete s) := by
    rintro ⟨sc, si⟩ hs
    cases sc <;> cases si <;>
      simp_all [statusInvariant, toggleShowCompleted, toggleShowIncomplete]
  refine ⟨?_, ?_, ?_, hpres⟩
  · intro s hreach
    induction hreach with
    | refl => exact Or.inl rfl
    | tail _ hstep ih =>
      cases hstep with
      | completed => exact (hpres _ ih).1
      | incomplete => exact (hpres _ ih).2
  · rintro ⟨sc, si⟩ h1 h2
    subst h1
    subst h2
    rfl
  · rintro ⟨sc, si⟩ h1 h2
    subst h1
    subst h2
    rfl

theorem status_toggle_invariant_witness :
    statusInvariant initialStatusFilterState
    ∧ toggleShowCompleted { showCompleted := true, showIncomplete := false }
        = { showCompleted := true, showIncomplete := false } :=
  ⟨status_toggle_invariant.1 initialStatusFilterState Relation.ReflTransGen.refl,
   status_toggle_invariant.2.1 { showCompleted := true, showIncomplete := false } rfl rfl⟩

/-- On a list with pairwise distinct history counts, the "frequent" sort
is the exact reverse of the "unfrequent" sort. -/
theorem sortTasks_frequent_reverse (m : List EnrichedTask)
    (hd : m.Pairwise (fun a b => a.historyCount ≠ b.historyCount)) :
    sortTasks .frequent m = (sortTasks .unfrequent m).reverse := by
  haveI : IsAntisymm EnrichedTask (fun a b => b.historyCount < a.historyCount) :=
    ⟨fun a b h1 h2 => absurd h1 (by omega)⟩
  haveI htf : IsTotal EnrichedTask (fun a b => taskComparator .frequent a b ≤ 0) :=
    ⟨fun a b => by simp only [taskComparator]; omega⟩
  haveI hrf : IsTrans EnrichedTask (fun a b => taskComparator .frequent a b ≤ 0) :=
    ⟨fun a b c h1 h2 => by simp only [taskComparator] at h1 h2 ⊢; omega⟩
  haveI htu : IsTotal EnrichedTask (fun a b => taskComparator .unfrequent a b ≤ 0) :=
    ⟨fun a b => by simp only [taskComparator]; omega⟩
  haveI hru : IsTrans EnrichedTask (fun a b => taskComparator .unfrequent a b ≤ 0) :=
    ⟨fun a b c h1 h2 => by simp only [taskComparator] at h1 h2 ⊢; omega⟩
  have hpermf : (sortTasks .frequent m).Perm m := List.perm_insertionSort _ m
  have hpermu : (sortTasks .unfrequent m).Perm m := List.perm_insertionSort _ m
  have hperm : (sortTasks .frequent m).Perm ((sortTasks .unfrequent m).reverse) :=
    (hpermf.trans hpermu.symm).trans (List.reverse_perm _).symm
  have hnef : (sortTasks .frequent m).Pairwise (fun a b => a.historyCount ≠ b.historyCount) :=
    (hpermf.pairwise_iff (fun hxy => Ne.symm hxy)).mpr hd
  have hneu : (sortTasks .unfrequent m).Pairwise (fun a b => a.historyCount ≠ b.historyCount) :=
    (hpermu.pairwise_iff (fun hxy => Ne.symm hxy)).mpr hd
  have hsf : (sortTasks .frequent m).Pairwise (fun a b => taskComparator .frequent a b ≤ 0) :=
    List.sorted_insertionSort _ m
  have hsu : (sortTasks .unfrequent m).Pairwise (fun a b => taskComparator .unfrequent a b ≤ 0) :=
    List.sorted_insertionSort _ m
  have hsorted1 : List.Sorted (fun a b => b.historyCount < a.historyCount)
      (sortTasks .frequent m) :=
    (hsf.and hnef).imp (fun hab => by
      obtain ⟨h1, h2⟩ := hab
      simp only [taskComparator] at h1
      omega)
  have hsorted2 : List.Sorted (fun a b => b.historyCount < a.historyCount)
      ((sortTasks .unfrequent m).reverse) := by
    rw [List.Sorted, List.pairwise_reverse]
    exact (hsu.and hneu).imp (fun hab => by
      obtain ⟨h1, h2⟩ := hab
      simp only [taskComparator] at h1
      omega)
  exact List.eq_of_perm_of_sorted hperm hsorted1 hsorted2

/-- Claim C8: on a filtered task list with pairwise distinct history
counts, sorting with "frequent" (history count descending) and with
"unfrequent" (history count ascending) produce exactly reversed
sequences, in the web pipeline and in the mobile pipeline. -/
theorem frequent_unfrequent_reversed (sc si : Bool) (df : DurationFilterType)
    (impf : ImportanceFilterType) (f : MobileFilter) (l : List EnrichedTask)
    (hweb : (filteredTasks sc si df impf l).Pairwise
      (fun a b => a.historyCount ≠ b.historyCount))
    (hmob : (mobileFilteredTasks f df l).Pairwise
      (fun a b => a.historyCount ≠ b.historyCount)) :
    sortedAndFilteredTasks sc si df impf .frequent l
      = (sortedAndFilteredTasks sc si df impf .unfrequent l).reverse
    ∧ sortedAndFilteredTasksMobile f df .frequent l
      = (sortedAndFilteredTasksMobile f df .unfrequent l).reverse :=
  ⟨sortTasks_frequent_reverse _ hweb, sortTasks_frequent_reverse _ hmob⟩

theorem frequent_unfrequent_reversed_witness :
    sortedAndFilteredTasks true true .all .all .frequent exEnriched
      = (sortedAndFilteredTasks true true .all .all .unfrequent exEnriched).reverse
    ∧ sortedAndFilteredTasksMobile .all .all .frequent exEnriched
      = (sortedAndFilteredTasksMobile .all .all .unfrequent exEnriched).reverse :=
  frequent_unfrequent_reversed true true .all .all .all exEnriched (by decide) (by decide)

/-- Computation of the statistics comparator at the `lastActive` column,
descending direction. -/
theorem statsCmp_lastActive_desc (a b : UserStat) :
    statsCmp .lastActive .desc a b
      = -((a.lastActive.getD 0 : Int) - (b.lastActive.getD 0 : Int)) := rfl

/-- Computation of the statistics comparator at the `lastActive` column,
ascending direction. -/
theorem statsCmp_lastActive_asc (a b : UserStat) :
    statsCmp .lastActive .asc a b
      = (a.lastActive.getD 0 : Int) - (b.lastActive.getD 0 : Int) := rfl

/-- Claim C6, counterexample: sorting the statistics table by the
`lastActive` column in ascending direction places the user who owns zero
tasks (absent last-active value) BEFORE the user with a present value: the
code coalesces an absent `lastActive` to `0` before comparing
(`a.lastActive ?? 0`), so the later undefined-sorts-last branches never
run, and an absent value sorts first ascending, not last. -/
theorem stats_missing_last_counterexample :
    ¬ List.Pairwise
        (fun a b => statDatumMissing .lastActive a = true → statDatumMissing .lastActive b = true)
        (userStats [exUserA, exUserB] exStatsTasks .lastActive .asc) := by
  decide

/-- Claim C6, amended: an absent `lastActive` is coalesced to `0` before
comparison, so (whenever every present last-active timestamp is positive)
rows with a missing value appear after all present-valued rows under the
descending direction but before them under the ascending direction; no
other column can have a missing sort value. -/
theorem stats_lastActive_missing_position (users : List User) (allTasks : List EnrichedTask)
    (hpos : ∀ u ∈ users, ∀ v, (computeUserStat allTasks u).lastActive = some v → 0 < v) :
    List.Pairwise
      (fun a b => statDatumMissing .lastActive a = true → statDatumMissing .lastActive b = true)
      (userStats users allTasks .lastActive .desc)
    ∧ List.Pairwise
      (fun a b => statDatumMissing .lastActive b = true → statDatumMissing .lastActive a = true)
      (userStats users allTasks .lastActive .asc) := by
  have hposStat : ∀ s ∈ users.map (computeUserStat allTasks),
      ∀ v, s.lastActive = some v → 0 < v := by
    intro s hs v hv
    obtain ⟨u, hu, rfl⟩ := List.mem_map.mp hs
    exact hpos u hu v hv
  constructor
  · haveI : IsTotal UserStat (fun a b => statsCmp .lastActive .desc a b ≤ 0) :=
      ⟨fun a b => by
        rw [statsCmp_lastActive_desc, statsCmp_lastActive_desc]
        rcases le_total (a.lastActive.getD 0 : Int) (b.lastActive.getD 0 : Int) with h | h
        · exact Or.inr (by omega)
        · exact Or.inl (by omega)⟩
    haveI : IsTrans UserStat (fun a b => statsCmp .lastActive .desc a b ≤ 0) :=
      ⟨fun a b c h1 h2 => by
        rw [statsCmp_lastActive_desc] at h1 h2 ⊢
        omega⟩
    have hsorted : (userStats users allTasks .lastActive .desc).Pairwise
        (fun a b => statsCmp .lastActive .desc a b ≤ 0) :=
      List.sorted_insertionSort _ _
    have hmem : ∀ s ∈ userStats users allTasks .lastActive .desc,
        ∀ v, s.lastActive = some v → 0 < v := by
      intro s hs
      exact hposStat s ((List.perm_insertionSort _ _).mem_iff.mp hs)
    refine hsorted.imp_of_mem ?_
    intro a b ha hb hle hma
    rcases hB : b.lastActive with _ | v
    · simp [statDatumMissing, hB]
    · exfalso
      have hva : a.lastActive = none := by
        simpa [statDatumMissing, Option.isNone_iff_eq_none] using hma
      rw [statsCmp_lastActive_desc, hva, hB] at hle
      simp only [Option.getD_none, Option.getD_some] at hle
      have := hmem b hb v hB
      omega
  · haveI : IsTotal UserStat (fun a b => statsCmp .lastActive .asc a b ≤ 0) :=
      ⟨fun a b => by
        rw [statsCmp_lastActive_asc, statsCmp_lastActive_asc]
        rcases le_total (a.lastActive.getD 0 : Int) (b.lastActive.getD 0 : Int) with h | h
        · exact Or.inl (by omega)
        · exact Or.inr (by omega)⟩
    haveI : IsTrans UserStat (fun a b => statsCmp .lastActive .asc a b ≤ 0) :=
      ⟨fun a b c h1 h2 => by
        rw [statsCmp_lastActive_asc] at h1 h2 ⊢
        omega⟩
    have hsorted : (userStats users allTasks .lastActive .asc).Pairwise
        (fun a b => statsCmp .lastActive .asc a b ≤ 0) :=
      List.sorted_insertionSort _ _
    have hmem : ∀ s ∈ userStats users allTasks .lastActive .asc,
        ∀ v, s.lastActive = some v → 0 < v := by
      intro s hs
      exact hposStat s ((List.perm_insertionSort _ _).mem_iff.mp hs)
    refine hsorted.imp_of_mem ?_
    intro a b ha hb hle hmb
    rcases hA : a.lastActive with _ | v
    · simp [statDatumMissing, hA]
    · exfalso
      have hvb : b.lastActive = none := by
        simpa [statDatumMissing, Option.isNone_iff_eq_none] using hmb
      rw [statsCmp_lastActive_asc, hvb, hA] at hle
      simp only [Option.getD_none, Option.getD_some] at hle
      have := hmem a ha v hA
      omega

theorem stats_lastActive_missing_position_witness :
    List.Pairwise
      (fun a b => statDatumMissing .lastActive a = true → statDatumMissing .lastActive b = true)
      (userStats [exUserA, exUserB] exStatsTasks .lastActive .desc)
    ∧ List.Pairwise
      (fun a b => statDatumMissing .lastActive b = true → statDatumMissing .lastActive a = true)
      (userStats [exUserA, exUserB] exStatsTasks .lastActive .asc) :=
  stats_lastActive_missing_position [exUserA, exUserB] exStatsTasks (by
    intro u hu v hv
    simp only [List.mem_cons, List.not_mem_nil, or_false] at hu
    rcases hu with rfl | rfl
    · have h100 : (computeUserStat exStatsTasks exUserA).lastActive = some 100 := by decide
      rw [h100] at hv
      have := Option.some.inj hv
      omega
    · have hnone : (computeUserStat exStatsTasks exUserB).lastActive = none := by decide
      rw [hnone] at hv
      exact absurd hv (by simp))

end ConvexTest
